import Mathlib

/-!
Verification development for the detached-process execution and NDJSON
tailing subsystem of the `jean` backend (Rust sources under
`src/src-tauri/src/chat/`).

Strings are modelled as `List Char`.  Each Rust function relevant to the
claims is translated into a Lean definition with the same structure:

* `src/src-tauri/src/chat/tail.rs` — `NdjsonTailer` (`readLine`, `pollFuel`,
  `poll`); the growing file together with the reader offset and the pending
  buffer form `TailerState`.
* `src/src-tauri/src/chat/detached.rs` — `shellEscape`, and the shell
  command builders of `spawn_detached_codex` / `spawn_detached_kimi` (Unix).
* `src/src-tauri/src/chat/codex.rs` / `kimi.rs` — the per-line event
  interpreters (`processCodexEvent`, `processKimiEvent`) and the tail loop
  (`loopIter`, `runLoop`, `execDetachedTail`).

External collaborators (the cancellation registry, the liveness probe, the
filesystem and the clock) are supplied by environment records whose fields
are read exactly where the Rust code calls the collaborator; `log::*`
calls have no observable effect and are dropped.  Monotonic time is
measured in milliseconds and advances by the 50 ms poll interval at each
`thread::sleep`, so the instant observed during iteration `k` is `k * 50`.
-/

/-- Turn a string literal into the `List Char` representation used
throughout this development. -/
def toL (s : String) : List Char := s.toList

/-! ## NdjsonTailer (src/src-tauri/src/chat/tail.rs) -/

/-- State of an `NdjsonTailer` bound to a growing file: `file` is the byte
content currently on disk, `pos` the reader offset, and `buffer` the
`buffer` field holding an incomplete line. -/
structure TailerState where
  file : List Char
  pos : Nat
  buffer : List Char
  deriving Repr

/-- Split a character list at its first newline: `some (p, suf)` when the
list is `p ++ '\n' :: suf` with `p` newline-free, `none` when it contains
no newline. -/
def splitFirstNl : List Char → Option (List Char × List Char)
  | [] => none
  | c :: rest =>
    if c = '\n' then some ([], rest)
    else
      match splitFirstNl rest with
      | some (p, suf) => some (c :: p, suf)
      | none => none

/-- One `BufReader::read_line` call: starting at `pos`, return everything
up to and including the first newline, or up to the end of the currently
available data when no newline is present; the empty chunk signals EOF. -/
def readLine (s : TailerState) : List Char × TailerState :=
  let rest := s.file.drop s.pos
  match splitFirstNl rest with
  | some (p, _) => (p ++ ['\n'], { s with pos := s.pos + p.length + 1 })
  | none => (rest, { s with pos := s.file.length })

/-- Rust's `trim_end_matches('\n')`: drop every trailing newline. -/
def trimEndNl (l : List Char) : List Char :=
  (l.reverse.dropWhile (fun c => c = '\n')).reverse

/-- The loop body of `NdjsonTailer::poll`, with explicit fuel (the fuel is
only a termination device: `poll` always supplies enough, because each
non-empty `readLine` strictly advances `pos`).  Each iteration reads a
chunk, appends it to the pending buffer, and when the buffer now ends in a
newline emits it (trailing newlines removed) as one complete record. -/
def pollFuel : Nat → TailerState → List (List Char) × TailerState
  | 0, s => ([], s)
  | n + 1, s =>
    let r := readLine s
    if r.1.isEmpty then ([], r.2)
    else
      let s1 := { r.2 with buffer := r.2.buffer ++ r.1 }
      if s1.buffer.getLast? = some '\n' then
        let recrd := trimEndNl s1.buffer
        let res := pollFuel n { s1 with buffer := [] }
        (recrd :: res.1, res.2)
      else
        pollFuel n s1

/-- `NdjsonTailer::poll`: return all complete lines newly available since
the previous poll, without their trailing newline, buffering any
incomplete trailing data. -/
def poll (s : TailerState) : List (List Char) × TailerState :=
  pollFuel (s.file.length - s.pos + 1) s

/-- An interaction with the tailed file: the writer appends a chunk of
bytes, or the run loop polls the tailer. -/
inductive TOp where
  | write (data : List Char)
  | poll

/-- Run a sequence of writes and polls against a tailer, collecting every
record returned by the polls in order. -/
def runOps : List TOp → TailerState → List (List Char) × TailerState
  | [], s => ([], s)
  | TOp.write d :: ops, s => runOps ops { s with file := s.file ++ d }
  | TOp.poll :: ops, s =>
    let r := poll s
    let r2 := runOps ops r.2
    (r.1 ++ r2.1, r2.2)

/-- The tailer of a fresh run: empty file, reader at offset 0, empty
pending buffer (`NdjsonTailer::new_from_start` on the just-created empty
output file). -/
def initTailer : TailerState := { file := [], pos := 0, buffer := [] }

/-- Decompose a character list into its complete (newline-terminated)
lines, each without its newline, and the trailing incomplete remainder. -/
def splitNl : List Char → List (List Char) × List Char
  | [] => ([], [])
  | c :: rest =>
    let r := splitNl rest
    if c = '\n' then ([] :: r.1, r.2)
    else
      match r.1 with
      | l1 :: ls => ((c :: l1) :: ls, r.2)
      | [] => ([], c :: r.2)

/-- The complete newline-terminated lines of a character list, in order,
each with its newline removed. -/
def completeLines (l : List Char) : List (List Char) := (splitNl l).1

/-- Re-glue a record list: each record followed by a newline. -/
def joinRecs (E : List (List Char)) : List Char :=
  (E.map (fun r => r ++ ['\n'])).flatten

/-- Invariant tying a tailer state to the records `E` it has emitted so
far: the consumed prefix of the file is exactly the emitted records (each
with its newline) followed by the pending buffer, and neither the buffer
nor any record contains a newline. -/
def TInv (s : TailerState) (E : List (List Char)) : Prop :=
  s.pos ≤ s.file.length ∧ '\n' ∉ s.buffer ∧ (∀ r ∈ E, '\n' ∉ r) ∧
    s.file.take s.pos = joinRecs E ++ s.buffer

/-! ## ShellEscaper (src/src-tauri/src/chat/detached.rs, `shell_escape`) -/

/-- Rust's `s.replace('\'', "'\\''")`: every single quote becomes the
four-character sequence close-quote, backslash, quote, reopen-quote. -/
def replaceQuotes (s : List Char) : List Char :=
  s.flatMap (fun c => if c = '\'' then ['\'', '\\', '\'', '\''] else [c])

/-- `shell_escape`: wrap in single quotes after replacing embedded single
quotes. -/
def shellEscape (s : List Char) : List Char :=
  '\'' :: replaceQuotes s ++ ['\'']

/-- Parser mode for a POSIX shell word: outside quotes, inside single
quotes, or immediately after an unquoted backslash. -/
inductive QMode where
  | norm
  | squote
  | esc

/-- Modelled from the spec: POSIX shell word recognition, as far as the
quoting constructs relevant here go.  Outside quotes a backslash escapes
the next character, a single quote opens a single-quoted span (inside
which every character except the closing quote is literal), and unquoted
whitespace ends the word (refused here, so a successful parse is a single
argument); all other characters are literal.  Returns the literal argument
the shell would produce, or `none` when the input is not one well-formed
word. -/
def parseWordM : QMode → List Char → Option (List Char)
  | QMode.norm, [] => some []
  | QMode.norm, c :: rest =>
    if c = '\\' then parseWordM QMode.esc rest
    else if c = '\'' then parseWordM QMode.squote rest
    else if c = ' ' ∨ c = '\t' ∨ c = '\n' then none
    else (parseWordM QMode.norm rest).map (fun t => c :: t)
  | QMode.esc, [] => none
  | QMode.esc, c :: rest => (parseWordM QMode.norm rest).map (fun t => c :: t)
  | QMode.squote, [] => none
  | QMode.squote, c :: rest =>
    if c = '\'' then parseWordM QMode.norm rest
    else (parseWordM QMode.squote rest).map (fun t => c :: t)

/-! ## DetachedLauncher command builders (src/src-tauri/src/chat/detached.rs,
Unix paths of `spawn_detached_codex` and `spawn_detached_kimi`) -/

/-- The `env_exports` string: `K=escaped(V)` pairs joined by spaces. -/
def envExports (envVars : List (List Char × List Char)) : List Char :=
  List.intercalate [' '] (envVars.map (fun kv => kv.1 ++ ['='] ++ shellEscape kv.2))

/-- The `args_str` string: each argument shell-escaped, joined by spaces. -/
def argsStr (args : List (List Char)) : List Char :=
  List.intercalate [' '] (args.map shellEscape)

/-- The shell command built by the Unix `spawn_detached_codex`: env
exports (when non-empty), `nohup`, the escaped binary and arguments, and
the stdout/stderr append redirections, backgrounded with the PID echoed. -/
def spawnCodexCmd (cliPath : List Char) (args : List (List Char))
    (outputFile stderrFile : List Char)
    (envVars : List (List Char × List Char)) : List Char :=
  if (envExports envVars).isEmpty then
    toL "nohup " ++ shellEscape cliPath ++ [' '] ++ argsStr args ++ toL " >> " ++
      shellEscape outputFile ++ toL " 2>> " ++ shellEscape stderrFile ++
      toL " & echo $!"
  else
    envExports envVars ++ [' '] ++ toL "nohup " ++ shellEscape cliPath ++ [' '] ++
      argsStr args ++ toL " >> " ++ shellEscape outputFile ++ toL " 2>> " ++
      shellEscape stderrFile ++ toL " & echo $!"

/-- The shell command built by the Unix `spawn_detached_kimi`: no `nohup`,
and the `_env_vars` parameter is accepted but never read, exactly as in the
source. -/
def spawnKimiCmd (cliPath : List Char) (args : List (List Char))
    (outputFile stderrFile : List Char)
    (_envVars : List (List Char × List Char)) : List Char :=
  shellEscape cliPath ++ [' '] ++ argsStr args ++ toL " >> " ++
    shellEscape outputFile ++ toL " 2>> " ++ shellEscape stderrFile ++
    toL " & echo $!"

/-! ## JSON values (serde_json) -/

/-- JSON values, mirroring `serde_json::Value` (numbers are modelled by
their integer part; no claim inspects a numeric field). -/
inductive Json where
  | null
  | bool (b : Bool)
  | num (n : Int)
  | str (s : List Char)
  | arr (items : List Json)
  | obj (fields : List (List Char × Json))

/-- `Value::get(key)`: field lookup on objects, `None` on anything else. -/
def Json.getField : Json → List Char → Option Json
  | Json.obj fields, key => (fields.find? (fun f => f.1 == key)).map (fun f => f.2)
  | _, _ => none

/-- `Value::as_str`. -/
def Json.asStr : Json → Option (List Char)
  | Json.str s => some s
  | _ => none

/-- `Value::as_array`. -/
def Json.asArr : Json → Option (List Json)
  | Json.arr xs => some xs
  | _ => none

/-- ASCII whitespace (the whitespace actually occurring in NDJSON
records; stands in for Rust's Unicode `char::is_whitespace`). -/
def isWs (c : Char) : Bool := c = ' ' ∨ c = '\t' ∨ c = '\n' ∨ c = '\r'

/-- Rust's `str::trim`. -/
def trimWs (s : List Char) : List Char :=
  ((s.dropWhile isWs).reverse.dropWhile isWs).reverse

/-- JSON string-body parser: consumes up to the closing quote, decoding
the common backslash escapes (`\uXXXX` is not modelled). -/
def parseStrBody : List Char → Option (List Char × List Char)
  | [] => none
  | c :: rest =>
    if c = '"' then some ([], rest)
    else if c = '\\' then
      match rest with
      | [] => none
      | e :: rest2 =>
        let dec : Option Char :=
          if e = '"' then some '"'
          else if e = '\\' then some '\\'
          else if e = '/' then some '/'
          else if e = 'n' then some '\n'
          else if e = 't' then some '\t'
          else if e = 'r' then some '\r'
          else if e = 'b' then some (Char.ofNat 8)
          else if e = 'f' then some (Char.ofNat 12)
          else none
        match dec with
        | none => none
        | some d => (parseStrBody rest2).map (fun pr => (d :: pr.1, pr.2))
    else (parseStrBody rest).map (fun pr => (c :: pr.1, pr.2))

/-- Integer literal parser (optional minus sign, decimal digits). -/
def parseNum (s : List Char) : Option (Int × List Char) :=
  let neg : Bool := match s with
    | '-' :: _ => true
    | _ => false
  let s1 : List Char := match s with
    | '-' :: rest => rest
    | _ => s
  let ds := s1.takeWhile (fun c => c.isDigit)
  let r1 := s1.dropWhile (fun c => c.isDigit)
  if ds.isEmpty then none
  else
    let n : Nat := ds.foldl (fun acc c => acc * 10 + (c.toNat - 48)) 0
    some (if neg then -(n : Int) else (n : Int), r1)

/-- Parser mode: one value, array items after `[`, array continuation
after an item, object items after the opening brace, object continuation
after a field. -/
inductive PMode where
  | val
  | arrItems
  | arrTail
  | objItems
  | objTail

/-- Recursive-descent JSON parser with fuel (the fuel only bounds nesting;
`parseJson` supplies more than enough). -/
def parseCore : Nat → PMode → List Char → Option (Json × List Char)
  | 0, _, _ => none
  | fuel + 1, PMode.val, s =>
    match s.dropWhile isWs with
    | [] => none
    | c :: rest =>
      if c = 'n' then
        match rest with
        | 'u' :: 'l' :: 'l' :: r => some (Json.null, r)
        | _ => none
      else if c = 't' then
        match rest with
        | 'r' :: 'u' :: 'e' :: r => some (Json.bool true, r)
        | _ => none
      else if c = 'f' then
        match rest with
        | 'a' :: 'l' :: 's' :: 'e' :: r => some (Json.bool false, r)
        | _ => none
      else if c = '"' then
        (parseStrBody rest).map (fun pr => (Json.str pr.1, pr.2))
      else if c = '[' then parseCore fuel PMode.arrItems rest
      else if c = '{' then parseCore fuel PMode.objItems rest
      else (parseNum (c :: rest)).map (fun pr => (Json.num pr.1, pr.2))
  | fuel + 1, PMode.arrItems, s =>
    match s.dropWhile isWs with
    | ']' :: r => some (Json.arr [], r)
    | s' =>
      match parseCore fuel PMode.val s' with
      | none => none
      | some (v, r1) =>
        match parseCore fuel PMode.arrTail r1 with
        | some (Json.arr vs, r2) => some (Json.arr (v :: vs), r2)
        | _ => none
  | fuel + 1, PMode.arrTail, s =>
    match s.dropWhile isWs with
    | ']' :: r => some (Json.arr [], r)
    | ',' :: r =>
      match parseCore fuel PMode.val r with
      | none => none
      | some (v, r1) =>
        match parseCore fuel PMode.arrTail r1 with
        | some (Json.arr vs, r2) => some (Json.arr (v :: vs), r2)
        | _ => none
    | _ => none
  | fuel + 1, PMode.objItems, s =>
    match s.dropWhile isWs with
    | '}' :: r => some (Json.obj [], r)
    | '"' :: r =>
      match parseStrBody r with
      | none => none
      | some (key, r1) =>
        match r1.dropWhile isWs with
        | ':' :: r2 =>
          match parseCore fuel PMode.val r2 with
          | none => none
          | some (v, r3) =>
            match parseCore fuel PMode.objTail r3 with
            | some (Json.obj fs, r4) => some (Json.obj ((key, v) :: fs), r4)
            | _ => none
        | _ => none
    | _ => none
  | fuel + 1, PMode.objTail, s =>
    match s.dropWhile isWs with
    | '}' :: r => some (Json.obj [], r)
    | ',' :: r =>
      match r.dropWhile isWs with
      | '"' :: r0 =>
        match parseStrBody r0 with
        | none => none
        | some (key, r1) =>
          match r1.dropWhile isWs with
          | ':' :: r2 =>
            match parseCore fuel PMode.val r2 with
            | none => none
            | some (v, r3) =>
              match parseCore fuel PMode.objTail r3 with
              | some (Json.obj fs, r4) => some (Json.obj ((key, v) :: fs), r4)
              | _ => none
          | _ => none
      | _ => none
    | _ => none

/-- Model of `serde_json::from_str` on one record line: parse one JSON
value and require only trailing whitespace after it. -/
def parseJson (s : List Char) : Option Json :=
  match parseCore (2 * s.length + 2) PMode.val s with
  | some (j, rest) => if (rest.dropWhile isWs).isEmpty then some j else none
  | none => none

/-! ## EventInterpreters (src/src-tauri/src/chat/codex.rs `process_codex_event`,
src/src-tauri/src/chat/kimi.rs `process_kimi_event`).

Every emitted frontend payload also carries the constant `session_id` and
`worktree_id` of the run; those two constant fields are elided from `Ev`. -/

/-- A frontend event emitted by an interpreter: `chat:chunk`,
`chat:thinking`, `chat:tool_use`, `chat:tool_result`, `chat:error`. -/
inductive Ev where
  | chunk (content : List Char)
  | thinking (content : List Char)
  | toolUse (id name : List Char) (input : Json)
  | toolResult (toolUseId output : List Char)
  | error (msg : List Char)

/-- `process_codex_event` on an already-parsed JSON record: dispatch on the
`type` discriminator exactly as the Rust `match`.  Returns the new
transcript, the emitted events in order, and the completion signal. -/
def processCodexJson (msg : Json) (full : List Char) :
    List Char × List Ev × Option Bool :=
  let eventType := ((msg.getField (toL "type")).bind Json.asStr).getD []
  if eventType = toL "item.completed" then
    match msg.getField (toL "item") with
    | some item =>
      let itemType := ((item.getField (toL "type")).bind Json.asStr).getD []
      if itemType = toL "agent_message" then
        match (item.getField (toL "text")).bind Json.asStr with
        | some text =>
          if text.isEmpty then (full, [], none)
          else (full ++ text ++ ['\n'], [Ev.chunk (text ++ ['\n'])], none)
        | none => (full, [], none)
      else if itemType = toL "reasoning" then
        match (item.getField (toL "text")).bind Json.asStr with
        | some text => (full, [Ev.thinking text], none)
        | none => (full, [], none)
      else if itemType = toL "command_execution" then
        let command := ((item.getField (toL "command")).bind Json.asStr).getD []
        let output := ((item.getField (toL "output")).bind Json.asStr).getD []
        let toolId := ((item.getField (toL "id")).bind Json.asStr).getD []
        (full,
          [Ev.toolUse toolId (toL "Bash")
              (Json.obj [(toL "command", Json.str command)]),
            Ev.toolResult toolId output], none)
      else if itemType = toL "file_change" then
        let filePath := ((item.getField (toL "file_path")).bind Json.asStr).getD []
        let changeType :=
          ((item.getField (toL "change_type")).bind Json.asStr).getD (toL "edit")
        let toolId := ((item.getField (toL "id")).bind Json.asStr).getD []
        let toolName :=
          if changeType = toL "create" then toL "Write"
          else if changeType = toL "delete" then toL "Bash"
          else toL "Edit"
        (full,
          [Ev.toolUse toolId toolName
              (Json.obj [(toL "file_path", Json.str filePath)])], none)
      else if itemType = toL "mcp_tool_call" then
        let toolName := ((item.getField (toL "tool_name")).bind Json.asStr).getD []
        let toolId := ((item.getField (toL "id")).bind Json.asStr).getD []
        let arguments := (item.getField (toL "arguments")).getD Json.null
        (full, [Ev.toolUse toolId toolName arguments], none)
      else
        match (item.getField (toL "text")).bind Json.asStr with
        | some text =>
          if text.isEmpty then (full, [], none)
          else (full ++ text ++ ['\n'], [Ev.chunk (text ++ ['\n'])], none)
        | none => (full, [], none)
    | none => (full, [], none)
  else if eventType = toL "item.started" then
    match msg.getField (toL "item") with
    | some item =>
      let itemType := ((item.getField (toL "type")).bind Json.asStr).getD []
      if itemType = toL "command_execution" then
        let command := ((item.getField (toL "command")).bind Json.asStr).getD []
        let toolId := ((item.getField (toL "id")).bind Json.asStr).getD []
        (full,
          [Ev.toolUse toolId (toL "Bash")
              (Json.obj [(toL "command", Json.str command)])], none)
      else (full, [], none)
    | none => (full, [], none)
  else if eventType = toL "turn.completed" then
    (full, [], some true)
  else if eventType = toL "turn.failed" ∨ eventType = toL "error" then
    let errorMsg :=
      (((msg.getField (toL "error")).bind
            (fun e => (e.getField (toL "message")).bind Json.asStr)).orElse
          (fun _ => (msg.getField (toL "message")).bind Json.asStr)).getD
        (toL "Unknown error")
    (full, [Ev.error errorMsg], none)
  else if eventType = toL "thread.started" ∨ eventType = toL "turn.started" then
    (full, [], none)
  else
    match (((msg.getField (toL "text")).bind Json.asStr).orElse
        (fun _ => (msg.getField (toL "content")).bind Json.asStr)).orElse
        (fun _ => (msg.getField (toL "output")).bind Json.asStr) with
    | some text => (full ++ text ++ ['\n'], [Ev.chunk (text ++ ['\n'])], none)
    | none => (full, [], none)

/-- `process_codex_event` on a raw line: skip whitespace-only lines, fall
back to plain-text transcript content when JSON parsing fails. -/
def processCodexEvent (line : List Char) (full : List Char) :
    List Char × List Ev × Option Bool :=
  if (trimWs line).isEmpty then (full, [], none)
  else
    match parseJson line with
    | none => (full ++ line ++ ['\n'], [Ev.chunk (line ++ ['\n'])], none)
    | some msg => processCodexJson msg full

/-- The Kimi tool-name remap table (`kimi.rs`, the `mapped_name` match). -/
def kimiMapTool (n : List Char) : List Char :=
  if n = toL "WriteFile" ∨ n = toL "CreateFile" then toL "Write"
  else if n = toL "ReadFile" then toL "Read"
  else if n = toL "EditFile" ∨ n = toL "PatchFile" then toL "Edit"
  else if n = toL "RunCommand" ∨ n = toL "Bash" ∨ n = toL "Shell" then toL "Bash"
  else if n = toL "ListDirectory" ∨ n = toL "ListDir" then toL "Bash"
  else if n = toL "DeleteFile" then toL "Bash"
  else if n = toL "SearchFiles" ∨ n = toL "GlobTool" then toL "Glob"
  else if n = toL "GrepTool" ∨ n = toL "SearchContent" then toL "Grep"
  else n

/-- The `for tool_call in tool_calls` loop of `process_kimi_event`: one
`chat:tool_use` per call that has a `function` object, with the remapped
name and the re-parsed JSON argument string. -/
def kimiToolCallEvents : List Json → List Ev
  | [] => []
  | tc :: rest =>
    let toolId := ((tc.getField (toL "id")).bind Json.asStr).getD []
    (match tc.getField (toL "function") with
      | some fn =>
        let toolName := ((fn.getField (toL "name")).bind Json.asStr).getD []
        let arguments :=
          ((fn.getField (toL "arguments")).bind Json.asStr).getD (toL "\x7b\x7d")
        let input := (parseJson arguments).getD (Json.obj [])
        [Ev.toolUse toolId (kimiMapTool toolName) input]
      | none => []) ++ kimiToolCallEvents rest

/-- The `for item in content_arr` loop of `process_kimi_event`: thinking
blocks are emitted (not transcribed), text blocks are appended and
emitted. -/
def kimiBlockEvents : List Json → List Char → List Char × List Ev
  | [], full => (full, [])
  | item :: rest, full =>
    let itemType := ((item.getField (toL "type")).bind Json.asStr).getD []
    let pr :=
      if itemType = toL "think" then
        match (item.getField (toL "think")).bind Json.asStr with
        | some t => if t.isEmpty then (full, ([] : List Ev)) else (full, [Ev.thinking t])
        | none => (full, [])
      else if itemType = toL "text" then
        match (item.getField (toL "text")).bind Json.asStr with
        | some t =>
          if t.isEmpty then (full, [])
          else (full ++ t ++ ['\n'], [Ev.chunk (t ++ ['\n'])])
        | none => (full, [])
      else (full, [])
    let pr2 := kimiBlockEvents rest pr.1
    (pr2.1, pr.2 ++ pr2.2)

/-- `process_kimi_event` on an already-parsed JSON record: dispatch on the
`role` discriminator.  Never signals completion. -/
def processKimiJson (msg : Json) (full : List Char) :
    List Char × List Ev × Option Bool :=
  let role := ((msg.getField (toL "role")).bind Json.asStr).getD []
  if role = toL "assistant" then
    let pr :=
      match (msg.getField (toL "content")).bind Json.asStr with
      | some contentStr =>
        if contentStr.isEmpty then (full, ([] : List Ev))
        else (full ++ contentStr ++ ['\n'], [Ev.chunk (contentStr ++ ['\n'])])
      | none =>
        match (msg.getField (toL "content")).bind Json.asArr with
        | some contentArr => kimiBlockEvents contentArr full
        | none => (full, [])
    let evs2 :=
      match (msg.getField (toL "tool_calls")).bind Json.asArr with
      | some toolCalls => kimiToolCallEvents toolCalls
      | none => []
    (pr.1, pr.2 ++ evs2, none)
  else if role = toL "tool" then
    let toolCallId := ((msg.getField (toL "tool_call_id")).bind Json.asStr).getD []
    let output := ((msg.getField (toL "content")).bind Json.asStr).getD []
    (full, [Ev.toolResult toolCallId output], none)
  else if role = toL "error" then
    let errorMsg :=
      (((msg.getField (toL "content")).bind Json.asStr).orElse
          (fun _ => (msg.getField (toL "message")).bind Json.asStr)).getD
        (toL "Unknown error")
    (full, [Ev.error errorMsg], none)
  else (full, [], none)

/-- `process_kimi_event` on a raw line: same whitespace-skip and
plain-text fallback as the Codex interpreter. -/
def processKimiEvent (line : List Char) (full : List Char) :
    List Char × List Ev × Option Bool :=
  if (trimWs line).isEmpty then (full, [], none)
  else
    match parseJson line with
    | none => (full ++ line ++ ['\n'], [Ev.chunk (line ++ ['\n'])], none)
    | some msg => processKimiJson msg full

/-- A Kimi `tool_calls` entry: an id plus a `function` object carrying the
vendor tool name and a JSON-encoded argument string. -/
def mkKimiToolCall (id name argstr : List Char) : Json :=
  Json.obj [(toL "id", Json.str id),
    (toL "function",
      Json.obj [(toL "name", Json.str name), (toL "arguments", Json.str argstr)])]

/-- A Kimi assistant record with an optional plain-string `content` field
and a `tool_calls` array built from (id, vendor name, argument string)
triples. -/
def mkKimiAssistant (content : Option (List Char))
    (calls : List (List Char × List Char × List Char)) : Json :=
  Json.obj ((toL "role", Json.str (toL "assistant")) ::
    ((match content with
      | some c => [(toL "content", Json.str c)]
      | none => []) ++
      [(toL "tool_calls",
        Json.arr (calls.map (fun t => mkKimiToolCall t.1 t.2.1 t.2.2)))]))

/-- The domain of the Kimi tool-name remap table. -/
def kimiTableNames : List (List Char) :=
  [toL "WriteFile", toL "CreateFile", toL "ReadFile", toL "EditFile",
    toL "PatchFile", toL "RunCommand", toL "Bash", toL "Shell",
    toL "ListDirectory", toL "ListDir", toL "DeleteFile", toL "SearchFiles",
    toL "GlobTool", toL "GrepTool", toL "SearchContent"]

/-! ## SessionRunLoop (the tail loops of `execute_codex_detached` and
`execute_kimi_detached`; the two Rust loops are textually identical up to
the interpreter called and the timeout message, so they are modelled by
one loop parametrised over those two values).

Collaborators are supplied by `LoopEnv`: `running k` is what
`registry::is_process_running(session_id)` returns during iteration `k`
(cancellation flips it to `false`), `pollRes k` is the tailer poll result,
`alive k` the liveness probe, and `stderrContent` the stderr file contents
(read and logged on startup timeout, with no observable effect).  The
monotonic clock is measured in iterations: the loop sleeps `POLL_MS`
between iterations, so `start_time.elapsed()` during iteration `k` is
`k * POLL_MS` and `last_output_time.elapsed()` is
`(k - lastOut) * POLL_MS`. -/

/-- `POLL_INTERVAL` in milliseconds. -/
def POLL_MS : Nat := 50

/-- `STARTUP_TIMEOUT` in milliseconds. -/
def STARTUP_TIMEOUT_MS : Nat := 120000

/-- `DEAD_PROCESS_GRACE_PERIOD` in milliseconds. -/
def GRACE_MS : Nat := 2000

/-- The loop-local mutable state of the tail loop: `full_content`,
`got_first_output`, `last_output_time` (as the iteration index at which
output was last seen), and `completed`. -/
structure RunSt where
  full : List Char
  gotFirst : Bool
  lastOut : Nat
  completed : Bool

/-- Loop state at entry: empty transcript, no output yet,
`last_output_time = start_time`, not completed. -/
def initRunSt : RunSt :=
  { full := [], gotFirst := false, lastOut := 0, completed := false }

/-- The environment one run's loop observes, indexed by iteration. -/
structure LoopEnv where
  running : Nat → Bool
  pollRes : Nat → Except (List Char) (List (List Char))
  alive : Nat → Bool
  stderrContent : List Char

/-- Which `break` ended the loop. -/
inductive ExitKind where
  | cancelled
  | completedTurn
  | processDied
  | timedOut

/-- Result of one loop iteration: continue into the next sleep, or break. -/
inductive StepRes where
  | next (st : RunSt)
  | stop (k : ExitKind) (st : RunSt)

/-- The `for line in lines` body: feed each record to the interpreter,
breaking (and dropping the remaining records of this poll) as soon as one
signals completion.  Returns the transcript, the events emitted, and
whether completion was signalled. -/
def processLines
    (procF : List Char → List Char → List Char × List Ev × Option Bool) :
    List (List Char) → List Char → List Char × List Ev × Bool
  | [], full => (full, [], false)
  | l :: rest, full =>
    let r := procF l full
    match r.2.2 with
    | some true => (r.1, r.2.1, true)
    | _ =>
      let r2 := processLines procF rest r.1
      (r2.1, r.2.1 ++ r2.2.1, r2.2.2)

/-- One iteration of the tail loop, in source order: cancellation check,
tailer poll (errors only logged), completion break, dead-process grace
check, startup-timeout check (which emits the timeout `chat:error`),
otherwise sleep and continue. -/
def loopIter (procF : List Char → List Char → List Char × List Ev × Option Bool)
    (timeoutMsg : List Char) (env : LoopEnv) (k : Nat) (st : RunSt) :
    List Ev × StepRes :=
  if env.running k = false then ([], StepRes.stop ExitKind.cancelled st)
  else
    let pe : List Ev × RunSt × Bool :=
      match env.pollRes k with
      | Except.error _ => ([], st, false)
      | Except.ok lines =>
        if lines.isEmpty then ([], st, false)
        else
          let pr := processLines procF lines st.full
          let st1 : RunSt := { full := pr.1, gotFirst := true, lastOut := k,
                               completed := st.completed || pr.2.2 }
          (pr.2.1, st1, st1.completed)
    if pe.2.2 then (pe.1, StepRes.stop ExitKind.completedTurn pe.2.1)
    else if env.alive k = false ∧ (k - pe.2.1.lastOut) * POLL_MS > GRACE_MS then
      (pe.1, StepRes.stop ExitKind.processDied pe.2.1)
    else if pe.2.1.gotFirst = false ∧ k * POLL_MS > STARTUP_TIMEOUT_MS then
      (pe.1 ++ [Ev.error timeoutMsg], StepRes.stop ExitKind.timedOut pe.2.1)
    else (pe.1, StepRes.next pe.2.1)

/-- The tail loop itself, with fuel bounding the number of iterations
(`none` means the loop was still running when the fuel ran out). -/
def runLoop (procF : List Char → List Char → List Char × List Ev × Option Bool)
    (timeoutMsg : List Char) (env : LoopEnv) :
    Nat → Nat → RunSt → List Ev × Option (ExitKind × RunSt)
  | 0, _, _ => ([], none)
  | fuel + 1, k, st =>
    match loopIter procF timeoutMsg env k st with
    | (evs, StepRes.stop x st1) => (evs, some (x, st1))
    | (evs, StepRes.next st1) =>
      let r := runLoop procF timeoutMsg env fuel (k + 1) st1
      (evs ++ r.1, r.2)

/-- An observable side effect of one run, in order: a frontend event, the
cancellation-registry registration / unregistration, or the terminal
`chat:done` emission. -/
inductive Eff where
  | emit (e : Ev)
  | register (pid : Nat)
  | unregister
  | emitDone (payload : Json)

/-- The fields of the returned `ClaudeResponse` that the claims inspect
(`tool_calls`, `content_blocks` and `usage` are the constants `[]`, `[]`
and `None` at both return sites). -/
structure CResp where
  content : List Char
  sessionId : List Char
  cancelled : Bool

/-- The `chat:done` payload: exactly the four fields built by the
`serde_json::json!` literal at the end of both functions. -/
def doneJson (sid wid : List Char) (success : Bool) (content : List Char) : Json :=
  Json.obj [(toL "session_id", Json.str sid), (toL "worktree_id", Json.str wid),
    (toL "success", Json.bool success), (toL "content", Json.str content)]

/-- The fallible steps around the loop: `spawn` bundles every step before
`register_process` (CLI path resolution, argument building, output-file
creation, the spawn itself — an error there returns before registration),
and `tailerNew` is the `NdjsonTailer::new_from_start` call made after
registration. -/
structure ExecEnv where
  spawn : Except (List Char) Nat
  tailerNew : Except (List Char) Unit
  loopEnv : LoopEnv

/-- `execute_codex_detached` / `execute_kimi_detached` from the spawn on:
register, create the tailer (note the `?` return on failure), run the tail
loop, then unregister and emit `chat:done` with
`success = completed || !response_text.is_empty()`. -/
def execDetachedTail
    (procF : List Char → List Char → List Char × List Ev × Option Bool)
    (timeoutMsg sid wid : List Char) (env : ExecEnv) (fuel : Nat) :
    Option (List Eff × Except (List Char) (Nat × CResp)) :=
  match env.spawn with
  | Except.error e => some ([], Except.error e)
  | Except.ok pid =>
    match env.tailerNew with
    | Except.error e =>
      some ([Eff.register pid],
        Except.error (toL "Failed to create tailer: " ++ e))
    | Except.ok _ =>
      let r := runLoop procF timeoutMsg env.loopEnv fuel 0 initRunSt
      match r.2 with
      | none => none
      | some pr =>
        let txt := trimWs pr.2.full
        some (Eff.register pid :: (r.1.map Eff.emit ++
            [Eff.unregister,
              Eff.emitDone (doneJson sid wid (pr.2.completed || !txt.isEmpty) txt)]),
          Except.ok (pid, { content := txt, sessionId := sid, cancelled := false }))

/-- The fixed Codex startup-timeout message. -/
def codexTimeoutMsg : List Char :=
  toL "Codex CLI startup timeout - no output received"

/-- The fixed Kimi startup-timeout message. -/
def kimiTimeoutMsg : List Char :=
  toL "Kimi CLI startup timeout - no output received"

/-- `execute_codex_detached` (from the spawn on). -/
def execCodexDetached (sid wid : List Char) (env : ExecEnv) (fuel : Nat) :
    Option (List Eff × Except (List Char) (Nat × CResp)) :=
  execDetachedTail processCodexEvent codexTimeoutMsg sid wid env fuel

/-- `execute_kimi_detached` (from the spawn on). -/
def execKimiDetached (sid wid : List Char) (env : ExecEnv) (fuel : Nat) :
    Option (List Eff × Except (List Char) (Nat × CResp)) :=
  execDetachedTail processKimiEvent kimiTimeoutMsg sid wid env fuel

/-- Number of `unregister_process` calls in an effect trace. -/
def countUnregister (effs : List Eff) : Nat :=
  effs.countP (fun e => match e with
    | Eff.unregister => true
    | _ => false)

/-- Number of `chat:error` emissions in an effect trace. -/
def countErrorEffs (effs : List Eff) : Nat :=
  effs.countP (fun e => match e with
    | Eff.emit (Ev.error _) => true
    | _ => false)

/-- Does `pat` occur as a contiguous substring of `s`? -/
def occursIn : List Char → List Char → Bool
  | pat, [] => pat.isEmpty
  | pat, c :: rest => pat.isPrefixOf (c :: rest) || occursIn pat rest

/-- Environment of a run whose tailer creation fails right after the
process id was registered. -/
def c2Env : ExecEnv :=
  { spawn := Except.ok 77, tailerNew := Except.error (toL "boom"),
    loopEnv := { running := fun _ => true, pollRes := fun _ => Except.ok [],
                 alive := fun _ => true, stderrContent := [] } }

/-- Environment of a run whose process is dead from the start and never
produces output, with cancellation never requested. -/
def c4Env : ExecEnv :=
  { spawn := Except.ok 7, tailerNew := Except.ok (),
    loopEnv := { running := fun _ => true, pollRes := fun _ => Except.ok [],
                 alive := fun _ => false, stderrContent := [] } }

/-- Environment of a run whose process stays alive but never writes
anything, with `boom` captured on stderr. -/
def c5Env : ExecEnv :=
  { spawn := Except.ok 9, tailerNew := Except.ok (),
    loopEnv := { running := fun _ => true, pollRes := fun _ => Except.ok [],
                 alive := fun _ => true, stderrContent := toL "boom" } }

/-- Environment of a run cancelled before its first iteration. -/
def c6Env : ExecEnv :=
  { spawn := Except.ok 5, tailerNew := Except.ok (),
    loopEnv := { running := fun _ => false, pollRes := fun _ => Except.ok [],
                 alive := fun _ => true, stderrContent := [] } }

/-- Environment of a run that receives one non-JSON record and is then
cancelled: no completion record is ever observed, but transcript text was
accumulated. -/
def c9Env : ExecEnv :=
  { spawn := Except.ok 3, tailerNew := Except.ok (),
    loopEnv := { running := fun k => k == 0,
                 pollRes := fun k => if k == 0 then Except.ok [toL "hi"] else Except.ok [],
                 alive := fun _ => true, stderrContent := [] } }

theorem splitFirstNl_eq_some {l p suf : List Char} (h : splitFirstNl l = some (p, suf)) :
    l = p ++ '\n' :: suf ∧ '\n' ∉ p := by
  induction l generalizing p suf with
  | nil => simp [splitFirstNl] at h
  | cons c rest ih =>
    by_cases hc : c = '\n'
    · subst hc
      simp [splitFirstNl] at h
      obtain ⟨hp, hsuf⟩ := h
      subst hp; subst hsuf
      simp
    · simp [splitFirstNl, hc] at h
      cases hrec : splitFirstNl rest with
      | none => rw [hrec] at h; simp at h
      | some pr =>
        rw [hrec] at h
        obtain ⟨p', suf'⟩ := pr
        simp at h
        obtain ⟨hp, hsuf⟩ := h
        obtain ⟨hl, hnp⟩ := ih hrec
        subst hp; subst hsuf
        refine ⟨by simp [hl], ?_⟩
        intro hm
        rcases List.mem_cons.mp hm with h1 | h2
        · exact hc h1.symm
        · exact hnp h2

theorem splitFirstNl_eq_none {l : List Char} (h : splitFirstNl l = none) : '\n' ∉ l := by
  induction l with
  | nil => simp
  | cons c rest ih =>
    by_cases hc : c = '\n'
    · subst hc; simp [splitFirstNl] at h
    · simp [splitFirstNl, hc] at h
      cases hrec : splitFirstNl rest with
      | none =>
        intro hm
        rcases List.mem_cons.mp hm with h1 | h2
        · exact hc h1.symm
        · exact ih hrec h2
      | some pr => rw [hrec] at h; simp at h

theorem trimEndNl_concat_nl (l : List Char) : trimEndNl (l ++ ['\n']) = trimEndNl l := by
  simp [trimEndNl, List.dropWhile]

theorem trimEndNl_of_not_mem {l : List Char} (h : '\n' ∉ l) : trimEndNl l = l := by
  unfold trimEndNl
  cases hr : l.reverse with
  | nil => simp_all
  | cons a t =>
    have ha : a ∈ l := by
      have : a ∈ l.reverse := by rw [hr]; simp
      simpa using this
    have hne : ¬(a = '\n') := fun hEq => h (hEq ▸ ha)
    rw [List.dropWhile_cons]
    simp [hne, ← hr]

theorem joinRecs_concat (E : List (List Char)) (r : List Char) :
    joinRecs (E ++ [r]) = joinRecs E ++ (r ++ ['\n']) := by
  simp [joinRecs]

theorem splitNl_cons (c : Char) (l : List Char) :
    splitNl (c :: l) =
      if c = '\n' then (([] : List Char) :: (splitNl l).1, (splitNl l).2)
      else
        match (splitNl l).1 with
        | l1 :: ls => ((c :: l1) :: ls, (splitNl l).2)
        | [] => ([], c :: (splitNl l).2) := by
  simp [splitNl]

theorem splitNl_no_nl {b : List Char} (h : '\n' ∉ b) : splitNl b = ([], b) := by
  induction b with
  | nil => rfl
  | cons c rest ih =>
    have hc : ¬(c = '\n') := fun hEq => h (by simp [hEq])
    have hrest : '\n' ∉ rest := fun hm => h (by simp [hm])
    simp [splitNl, hc, ih hrest]

theorem splitNl_line {r rest : List Char} (h : '\n' ∉ r) :
    splitNl (r ++ '\n' :: rest) = (r :: (splitNl rest).1, (splitNl rest).2) := by
  induction r with
  | nil => simp [splitNl]
  | cons c r' ih =>
    have hc : ¬(c = '\n') := fun hEq => h (by simp [hEq])
    have hr' : '\n' ∉ r' := fun hm => h (by simp [hm])
    rw [List.cons_append, splitNl_cons, ih hr']
    simp [hc]

theorem splitNl_join (E : List (List Char)) (b : List Char)
    (hE : ∀ r ∈ E, '\n' ∉ r) (hb : '\n' ∉ b) :
    splitNl (joinRecs E ++ b) = (E, b) := by
  induction E with
  | nil => simpa [joinRecs] using splitNl_no_nl hb
  | cons r E' ih =>
    have hr : '\n' ∉ r := hE r (by simp)
    have hE' : ∀ x ∈ E', '\n' ∉ x := fun x hx => hE x (by simp [hx])
    have : joinRecs (r :: E') ++ b = r ++ '\n' :: (joinRecs E' ++ b) := by
      simp [joinRecs]
    rw [this, splitNl_line hr, ih hE']

theorem getLast?_ne_of_not_mem {l : List Char} {a : Char} (h : a ∉ l) :
    l.getLast? ≠ some a := by
  induction l with
  | nil => simp
  | cons b t ih =>
    cases t with
    | nil =>
      intro hq
      simp at hq
      exact h (by simp [hq])
    | cons c t' =>
      rw [List.getLast?_cons_cons]
      exact ih (fun hm => h (by simp [hm]))

theorem take_append_len (p l2 : List Char) (i : Nat) :
    (p ++ l2).take (p.length + i) = p ++ l2.take i := by
  rw [List.take_append_eq_append_take, List.take_of_length_le (by omega)]
  have h2 : p.length + i - p.length = i := by omega
  rw [h2]

theorem pollFuel_succ_eof (n : Nat) (s : TailerState) (h : s.file.drop s.pos = []) :
    pollFuel (n + 1) s = ([], { s with pos := s.file.length }) := by
  simp [pollFuel, readLine, splitFirstNl, h]

theorem pollFuel_succ_line (n : Nat) (s : TailerState) (p suf : List Char)
    (hsp : splitFirstNl (s.file.drop s.pos) = some (p, suf))
    (hbp : '\n' ∉ s.buffer ++ p) :
    pollFuel (n + 1) s =
      ((s.buffer ++ p) ::
          (pollFuel n { file := s.file, pos := s.pos + p.length + 1, buffer := [] }).1,
        (pollFuel n { file := s.file, pos := s.pos + p.length + 1, buffer := [] }).2) := by
  have htr : trimEndNl (s.buffer ++ (p ++ ['\n'])) = s.buffer ++ p := by
    rw [← List.append_assoc, trimEndNl_concat_nl, trimEndNl_of_not_mem hbp]
  simp [pollFuel, readLine, hsp, htr]

theorem pollFuel_succ_tail (n : Nat) (s : TailerState)
    (h : s.file.drop s.pos ≠ [])
    (hsp : splitFirstNl (s.file.drop s.pos) = none)
    (hbuf : '\n' ∉ s.buffer) :
    pollFuel (n + 1) s =
      pollFuel n
        { file := s.file, pos := s.file.length,
          buffer := s.buffer ++ s.file.drop s.pos } := by
  have hnl := splitFirstNl_eq_none hsp
  have h1 : (s.file.drop s.pos).getLast? ≠ some '\n' := getLast?_ne_of_not_mem hnl
  have h2 : s.buffer.getLast? ≠ some '\n' := getLast?_ne_of_not_mem hbuf
  simp [pollFuel, readLine, hsp, h, h1, h2]

theorem pollFuel_spec :
    ∀ (n : Nat) (s : TailerState) (E : List (List Char)),
      TInv s E → s.file.length - s.pos < n →
      (pollFuel n s).2.file = s.file ∧ (pollFuel n s).2.pos = s.file.length ∧
        TInv (pollFuel n s).2 (E ++ (pollFuel n s).1) := by
  intro n
  induction n with
  | zero => intro s E _ hn; exact absurd hn (by omega)
  | succ n ih =>
    intro s E hI hn
    obtain ⟨hpos, hbuf, hE, htake⟩ := hI
    cases hsp : splitFirstNl (s.file.drop s.pos) with
    | none =>
      have hnl := splitFirstNl_eq_none hsp
      by_cases hre : s.file.drop s.pos = []
      · have hpe : s.pos = s.file.length := by
          have hle := List.drop_eq_nil_iff.mp hre
          omega
        have hfull : s.file = joinRecs E ++ s.buffer := by
          have h1 := htake
          rw [hpe, List.take_length] at h1
          exact h1
        rw [pollFuel_succ_eof n s hre]
        refine ⟨rfl, rfl, ?_⟩
        simp only [TInv, List.append_nil]
        exact ⟨by simp, hbuf, hE, by simpa [List.take_length] using hfull⟩
      · have hdlt : 0 < s.file.length - s.pos := by
          rcases Nat.lt_or_ge s.pos s.file.length with h | h
          · omega
          · exact absurd (List.drop_eq_nil_iff.mpr h) hre
        have hnlb : '\n' ∉ s.buffer ++ s.file.drop s.pos := by
          intro hm
          rcases List.mem_append.mp hm with h1 | h1
          · exact hbuf h1
          · exact hnl h1
        rw [pollFuel_succ_tail n s hre hsp hbuf]
        have hI1 : TInv { file := s.file, pos := s.file.length,
                          buffer := s.buffer ++ s.file.drop s.pos } E := by
          simp only [TInv]
          refine ⟨by simp, hnlb, hE, ?_⟩
          show s.file.take s.file.length = joinRecs E ++ (s.buffer ++ s.file.drop s.pos)
          rw [List.take_length]
          calc s.file = s.file.take s.pos ++ s.file.drop s.pos :=
                (List.take_append_drop ..).symm
            _ = (joinRecs E ++ s.buffer) ++ s.file.drop s.pos := by rw [htake]
            _ = joinRecs E ++ (s.buffer ++ s.file.drop s.pos) := by
                rw [List.append_assoc]
        have hres := ih _ E hI1 (by simp; omega)
        simpa using hres
    | some pr =>
      obtain ⟨p, suf⟩ := pr
      obtain ⟨hrest, hnp⟩ := splitFirstNl_eq_some hsp
      have hlenrest : (s.file.drop s.pos).length = s.file.length - s.pos :=
        List.length_drop ..
      have hposlt : s.pos + p.length + 1 ≤ s.file.length := by
        rw [hrest] at hlenrest
        simp at hlenrest
        omega
      have hbp : '\n' ∉ s.buffer ++ p := by
        intro hm
        rcases List.mem_append.mp hm with h1 | h1
        · exact hbuf h1
        · exact hnp h1
      rw [pollFuel_succ_line n s p suf hsp hbp]
      have hI2 : TInv { file := s.file, pos := s.pos + p.length + 1, buffer := [] }
          (E ++ [s.buffer ++ p]) := by
        simp only [TInv]
        refine ⟨hposlt, by simp, ?_, ?_⟩
        · intro r hr
          rcases List.mem_append.mp hr with h1 | h1
          · exact hE r h1
          · simp at h1
            subst h1
            exact hbp
        · show s.file.take (s.pos + p.length + 1) =
            joinRecs (E ++ [s.buffer ++ p]) ++ []
          have hadd : s.pos + p.length + 1 = s.pos + (p.length + 1) := by omega
          rw [hadd, List.take_add, htake, hrest]
          have hone : ('\n' :: suf).take 1 = ['\n'] := by simp
          rw [take_append_len p ('\n' :: suf) 1, hone, joinRecs_concat]
          simp [List.append_assoc]
      have hfuel : s.file.length - (s.pos + p.length + 1) < n := by omega
      have hres := ih _ _ hI2 hfuel
      refine ⟨hres.1, hres.2.1, ?_⟩
      have hre2 : E ++ ((s.buffer ++ p) ::
          (pollFuel n { file := s.file, pos := s.pos + p.length + 1, buffer := [] }).1) =
          (E ++ [s.buffer ++ p]) ++
            (pollFuel n { file := s.file, pos := s.pos + p.length + 1, buffer := [] }).1 := by
        simp
      rw [hre2]
      exact hres.2.2

theorem poll_spec (s : TailerState) (E : List (List Char)) (hI : TInv s E) :
    (poll s).2.file = s.file ∧ (poll s).2.pos = s.file.length ∧
      TInv (poll s).2 (E ++ (poll s).1) :=
  pollFuel_spec (s.file.length - s.pos + 1) s E hI (by omega)

theorem poll_at_end (s : TailerState) (h : s.pos = s.file.length) :
    poll s = ([], s) := by
  have hdrop : s.file.drop s.pos = [] := List.drop_eq_nil_iff.mpr (by omega)
  have h1 : s.file.length - s.pos + 1 = 0 + 1 := by omega
  rw [poll, h1, pollFuel_succ_eof 0 s hdrop]
  cases s with
  | mk f p b => simp at h; simp [h]

theorem TInv_write {s : TailerState} {E : List (List Char)} (d : List Char)
    (hI : TInv s E) : TInv { s with file := s.file ++ d } E := by
  obtain ⟨hpos, hbuf, hE, htake⟩ := hI
  refine ⟨by simp; omega, hbuf, hE, ?_⟩
  show (s.file ++ d).take s.pos = joinRecs E ++ s.buffer
  rw [List.take_append_eq_append_take]
  have h0 : s.pos - s.file.length = 0 := by omega
  rw [h0]
  simpa using htake

theorem runOps_spec :
    ∀ (ops : List TOp) (s : TailerState) (E : List (List Char)), TInv s E →
      TInv (runOps ops s).2 (E ++ (runOps ops s).1) := by
  intro ops
  induction ops with
  | nil => intro s E hI; simpa [runOps] using hI
  | cons op rest ih =>
    intro s E hI
    cases op with
    | write d =>
      have hres := ih _ E (TInv_write d hI)
      simpa [runOps] using hres
    | poll =>
      have hp := poll_spec s E hI
      have hres := ih _ _ hp.2.2
      simp only [runOps]
      simpa [List.append_assoc] using hres

theorem runOps_append (xs ys : List TOp) :
    ∀ s : TailerState,
      runOps (xs ++ ys) s =
        ((runOps xs s).1 ++ (runOps ys (runOps xs s).2).1,
          (runOps ys (runOps xs s).2).2) := by
  induction xs with
  | nil => intro s; simp [runOps]
  | cons op rest ih =>
    intro s
    cases op with
    | write d => simp [runOps, ih]
    | poll => simp [runOps, ih]

theorem poll_no_new_line_empty (s : TailerState) (E : List (List Char))
    (hI : TInv s E) (hpos : s.pos = s.file.length) (d : List Char)
    (hnd : '\n' ∉ d) :
    (poll { s with file := s.file ++ d }).1 = [] := by
  obtain ⟨hle, hbuf, hE, htake⟩ := hI
  have hfull : s.file = joinRecs E ++ s.buffer := by
    have h1 := htake
    rw [hpos, List.take_length] at h1
    exact h1
  have hI2 : TInv { s with file := s.file ++ d } E :=
    TInv_write d ⟨hle, hbuf, hE, htake⟩
  obtain ⟨hpf, hpp, hIF⟩ := poll_spec _ _ hI2
  obtain ⟨_, hFbuf, hFE, hFtake⟩ := hIF
  have hfin : s.file ++ d =
      joinRecs (E ++ (poll { s with file := s.file ++ d }).1) ++
        (poll { s with file := s.file ++ d }).2.buffer := by
    have h2 := hFtake
    rw [hpp, hpf] at h2
    have h3 : List.take (s.file.length + d.length) (s.file ++ d) = s.file ++ d :=
      List.take_of_length_le (by simp)
    simp only [TailerState.mk.injEq] at h2 ⊢
    simpa [h3] using h2
  have hbd : '\n' ∉ s.buffer ++ d := by
    intro hm
    rcases List.mem_append.mp hm with h1 | h1
    · exact hbuf h1
    · exact hnd h1
  have heq : s.file ++ d = joinRecs E ++ (s.buffer ++ d) := by
    rw [hfull, List.append_assoc]
  have hd1 := splitNl_join _ _ hFE hFbuf
  have hd2 := splitNl_join E (s.buffer ++ d) hE hbd
  rw [← hfin] at hd1
  rw [← heq] at hd2
  have hpair := hd1.symm.trans hd2
  have hEL : E ++ (poll { s with file := s.file ++ d }).1 = E :=
    congrArg Prod.fst hpair
  have hlen := congrArg List.length hEL
  simp at hlen
  exact hlen

/-- Claim C1: for every interleaving of writes and polls against a fresh
tailer, the concatenation of all poll outputs after a final poll equals the
complete newline-terminated lines of the file (in file order, newline
removed); the pending buffer never contains a newline; a poll immediately
after a poll returns nothing; and a poll after a newline-free write returns
nothing. -/
theorem c1_tailer_poll_stream (ops : List TOp) :
    '\n' ∉ (runOps ops initTailer).2.buffer ∧
    (runOps (ops ++ [TOp.poll]) initTailer).1 =
      completeLines (runOps (ops ++ [TOp.poll]) initTailer).2.file ∧
    poll (runOps (ops ++ [TOp.poll]) initTailer).2 =
      ([], (runOps (ops ++ [TOp.poll]) initTailer).2) ∧
    ∀ d : List Char, '\n' ∉ d →
      (poll { (runOps (ops ++ [TOp.poll]) initTailer).2 with
              file := (runOps (ops ++ [TOp.poll]) initTailer).2.file ++ d }).1 = [] := by
  have hI0 : TInv initTailer [] := by
    refine ⟨by simp [initTailer], by simp [initTailer], by simp, ?_⟩
    simp [initTailer, joinRecs]
  have hMspec := runOps_spec ops initTailer [] hI0
  have hbufM : '\n' ∉ (runOps ops initTailer).2.buffer := hMspec.2.1
  have hsingle : ∀ s : TailerState, runOps [TOp.poll] s = ((poll s).1, (poll s).2) := by
    intro s
    simp [runOps]
  have happ := runOps_append ops [TOp.poll] initTailer
  rw [hsingle] at happ
  have hIM : TInv (runOps ops initTailer).2 (runOps ops initTailer).1 := by
    simpa using hMspec
  obtain ⟨hpf, hpp, hpI⟩ := poll_spec (runOps ops initTailer).2 _ hIM
  have hFpos : (poll (runOps ops initTailer).2).2.pos =
      (poll (runOps ops initTailer).2).2.file.length := by
    rw [hpf]
    exact hpp
  obtain ⟨hFle, hFbuf, hFE, hFtake⟩ := hpI
  have hFile : (poll (runOps ops initTailer).2).2.file =
      joinRecs ((runOps ops initTailer).1 ++ (poll (runOps ops initTailer).2).1) ++
        (poll (runOps ops initTailer).2).2.buffer := by
    have h1 := hFtake
    rw [hFpos, List.take_length] at h1
    exact h1
  have hcl : completeLines (poll (runOps ops initTailer).2).2.file =
      (runOps ops initTailer).1 ++ (poll (runOps ops initTailer).2).1 := by
    rw [completeLines, hFile, splitNl_join _ _ hFE hFbuf]
  refine ⟨hbufM, ?_, ?_, ?_⟩
  · rw [happ]
    exact hcl.symm
  · rw [happ]
    exact poll_at_end _ hFpos
  · intro d hnd
    rw [happ]
    exact poll_no_new_line_empty _ _ ⟨hFle, hFbuf, hFE, hFtake⟩ hFpos d hnd

theorem replaceQuotes_cons (c : Char) (s : List Char) :
    replaceQuotes (c :: s) =
      (if c = '\'' then ['\'', '\\', '\'', '\''] else [c]) ++ replaceQuotes s := by
  simp [replaceQuotes]

theorem parseWordM_squote_body (s : List Char) :
    parseWordM QMode.squote (replaceQuotes s ++ ['\'']) = some s := by
  induction s with
  | nil => simp [replaceQuotes, parseWordM]
  | cons c s' ih =>
    by_cases hc : c = '\''
    · subst hc
      rw [replaceQuotes_cons, if_pos rfl]
      simp [parseWordM, ih]
    · rw [replaceQuotes_cons, if_neg hc]
      simp [parseWordM, hc, ih]

/-- Claim C3: `shell_escape` wraps its argument in single quotes with each
embedded single quote replaced by close-quote, escaped-quote, reopen-quote;
it maps the empty string to `''`; and parsing the escaped form as a POSIX
shell word always yields exactly the original string back as one literal
argument (round trip), including for strings consisting only of quote
characters. -/
theorem c3_shell_escape_roundtrip :
    (∀ s : List Char, shellEscape s = '\'' :: (replaceQuotes s ++ ['\''])) ∧
    shellEscape [] = toL "''" ∧
    shellEscape (toL "'") = toL "''\\'''" ∧
    ∀ s : List Char, parseWordM QMode.norm (shellEscape s) = some s := by
  refine ⟨fun s => rfl, by rfl, by rfl, ?_⟩
  intro s
  show parseWordM QMode.norm ('\'' :: (replaceQuotes s ++ ['\''])) = some s
  simp [parseWordM, parseWordM_squote_body]

/-- Claim C10: the Unix `spawn_detached_kimi` builds exactly the same shell
command for any two extra-environment lists, so the Kimi process never
receives caller-supplied environment variables; the Codex builder, by
contrast, does embed a non-empty environment list, showing the model is
sensitive to environment handling. -/
theorem c10_kimi_env_vars_ignored :
    (∀ (cli : List Char) (args : List (List Char)) (outF errF : List Char)
        (e1 e2 : List (List Char × List Char)),
        spawnKimiCmd cli args outF errF e1 = spawnKimiCmd cli args outF errF e2) ∧
    spawnCodexCmd (toL "/bin/codex") [] (toL "/tmp/out") (toL "/tmp/err")
        [(toL "K", toL "V")] ≠
      spawnCodexCmd (toL "/bin/codex") [] (toL "/tmp/out") (toL "/tmp/err") [] := by
  refine ⟨fun _ _ _ _ _ _ => rfl, ?_⟩
  decide

/-- Claim C7 (amended): every input line whose trimmed form is non-empty
and which fails to parse as JSON is appended verbatim plus a newline to
the transcript by both interpreters, with exactly one text-chunk event
carrying that content and no completion signal (the interpreters are total
functions, so no abort is possible).  Whitespace-only lines, which also
fail to parse as JSON, are skipped instead — see the counterexample. -/
theorem c7_non_json_line_amended (line full : List Char)
    (hne : (trimWs line).isEmpty = false) (hp : parseJson line = none) :
    processCodexEvent line full =
      (full ++ line ++ ['\n'], [Ev.chunk (line ++ ['\n'])], none) ∧
    processKimiEvent line full =
      (full ++ line ++ ['\n'], [Ev.chunk (line ++ ['\n'])], none) := by
  constructor
  · simp [processCodexEvent, hne, hp]
  · simp [processKimiEvent, hne, hp]

/-- Claim C7 witness: the non-JSON line `hello` on an empty transcript. -/
theorem c7_non_json_line_amended_witness :
    ((trimWs (toL "hello")).isEmpty = false ∧ parseJson (toL "hello") = none) ∧
    processCodexEvent (toL "hello") [] =
      ([] ++ toL "hello" ++ ['\n'], [Ev.chunk (toL "hello" ++ ['\n'])], none) ∧
    processKimiEvent (toL "hello") [] =
      ([] ++ toL "hello" ++ ['\n'], [Ev.chunk (toL "hello" ++ ['\n'])], none) :=
  ⟨⟨rfl, rfl⟩, c7_non_json_line_amended (toL "hello") [] rfl rfl⟩

/-- Claim C7 counterexample: the single-space line fails to parse as JSON,
yet both interpreters return with the transcript unchanged and no event
emitted — not the verbatim append plus text-chunk the claim requires for
every line that fails to parse. -/
theorem c7_whitespace_line_counterexample :
    parseJson [' '] = none ∧
    processCodexEvent [' '] [] = ([], [], none) ∧
    processKimiEvent [' '] [] = ([], [], none) ∧
    processCodexEvent [' '] [] ≠
      ([] ++ [' '] ++ ['\n'], [Ev.chunk ([' '] ++ ['\n'])], none) := by
  refine ⟨rfl, rfl, rfl, ?_⟩
  intro h
  rw [show processCodexEvent [' '] [] = (([] : List Char), ([] : List Ev),
    (none : Option Bool)) from rfl] at h
  simp at h

theorem kimiToolCallEvents_map
    (calls : List (List Char × List Char × List Char)) :
    kimiToolCallEvents (calls.map (fun t => mkKimiToolCall t.1 t.2.1 t.2.2)) =
      calls.map (fun t => Ev.toolUse t.1 (kimiMapTool t.2.1)
        ((parseJson t.2.2).getD (Json.obj []))) := by
  induction calls with
  | nil => rfl
  | cons t rest ih =>
    show (Ev.toolUse t.1 (kimiMapTool t.2.1)
        ((parseJson t.2.2).getD (Json.obj []))) ::
        kimiToolCallEvents (rest.map (fun t => mkKimiToolCall t.1 t.2.1 t.2.2)) = _
    rw [ih]
    rfl

/-- Claim C8: a Kimi assistant record with a `tool_calls` array yields one
`ToolUse` event per call, named by the canonical remap table (WriteFile and
CreateFile to Write; ReadFile to Read; EditFile and PatchFile to Edit;
RunCommand, Bash, Shell, ListDirectory, ListDir and DeleteFile to Bash;
SearchFiles and GlobTool to Glob; GrepTool and SearchContent to Grep; any
other name passed through); for every table name other than the fixed
point Bash the emitted name differs from the raw vendor name. -/
theorem c8_kimi_tool_remap :
    (∀ (content : Option (List Char))
        (calls : List (List Char × List Char × List Char)) (full : List Char),
        processKimiJson (mkKimiAssistant content calls) full =
          ((match content with
            | some c => if c.isEmpty then full else full ++ c ++ ['\n']
            | none => full),
            ((match content with
              | some c =>
                if c.isEmpty then ([] : List Ev) else [Ev.chunk (c ++ ['\n'])]
              | none => []) ++
              calls.map (fun t => Ev.toolUse t.1 (kimiMapTool t.2.1)
                ((parseJson t.2.2).getD (Json.obj [])))),
            none)) ∧
    (kimiMapTool (toL "WriteFile") = toL "Write" ∧
      kimiMapTool (toL "CreateFile") = toL "Write" ∧
      kimiMapTool (toL "ReadFile") = toL "Read" ∧
      kimiMapTool (toL "EditFile") = toL "Edit" ∧
      kimiMapTool (toL "PatchFile") = toL "Edit" ∧
      kimiMapTool (toL "RunCommand") = toL "Bash" ∧
      kimiMapTool (toL "Bash") = toL "Bash" ∧
      kimiMapTool (toL "Shell") = toL "Bash" ∧
      kimiMapTool (toL "ListDirectory") = toL "Bash" ∧
      kimiMapTool (toL "ListDir") = toL "Bash" ∧
      kimiMapTool (toL "DeleteFile") = toL "Bash" ∧
      kimiMapTool (toL "SearchFiles") = toL "Glob" ∧
      kimiMapTool (toL "GlobTool") = toL "Glob" ∧
      kimiMapTool (toL "GrepTool") = toL "Grep" ∧
      kimiMapTool (toL "SearchContent") = toL "Grep") ∧
    ((kimiTableNames.filter (fun n => n ≠ toL "Bash")).all
      (fun n => kimiMapTool n ≠ n) = true) ∧
    (∀ n : List Char, n ∉ kimiTableNames → kimiMapTool n = n) := by
  refine ⟨?_, by decide, by decide, ?_⟩
  · intro content calls full
    cases content with
    | none =>
      rw [show processKimiJson (mkKimiAssistant none calls) full =
        (full, kimiToolCallEvents
          (calls.map (fun t => mkKimiToolCall t.1 t.2.1 t.2.2)), none) from rfl]
      rw [kimiToolCallEvents_map]
      rfl
    | some c =>
      have hrole : (mkKimiAssistant (some c) calls).getField (toL "role") =
          some (Json.str (toL "assistant")) := rfl
      have hcontent : (mkKimiAssistant (some c) calls).getField (toL "content") =
          some (Json.str c) := rfl
      have htce : (mkKimiAssistant (some c) calls).getField (toL "tool_calls") =
          some (Json.arr (calls.map (fun t => mkKimiToolCall t.1 t.2.1 t.2.2))) := rfl
      simp only [processKimiJson, hrole, hcontent, htce, Json.asStr,
        Option.some_bind, Option.getD_some]
      by_cases hc : c.isEmpty
      · simp [hc, Json.asArr, kimiToolCallEvents_map]
      · simp [hc, Json.asArr, kimiToolCallEvents_map]
  · intro n hn
    simp [kimiTableNames] at hn
    obtain ⟨h1, h2, h3, h4, h5, h6, h7, h8, h9, h10, h11, h12, h13, h14, h15⟩ := hn
    simp [kimiMapTool, h1, h2, h3, h4, h5, h6, h7, h8, h9, h10, h11, h12, h13, h14, h15]

/-- Claim C8 witness: a name outside the table passes through unchanged. -/
theorem c8_kimi_tool_remap_witness :
    (toL "Frobnicate") ∉ kimiTableNames ∧
      kimiMapTool (toL "Frobnicate") = toL "Frobnicate" :=
  ⟨by decide, c8_kimi_tool_remap.2.2.2 (toL "Frobnicate") (by decide)⟩

/-- Claim C1 witness: after writing `a\n` and polling, appending the
newline-free chunk `b` makes the next poll return nothing. -/
theorem c1_tailer_poll_stream_witness :
    ('\n' ∉ toL "b") ∧
    (poll { (runOps ([TOp.write (toL "a\n")] ++ [TOp.poll]) initTailer).2 with
            file := (runOps ([TOp.write (toL "a\n")] ++ [TOp.poll])
              initTailer).2.file ++ toL "b" }).1 = [] :=
  ⟨by decide, (c1_tailer_poll_stream [TOp.write (toL "a\n")]).2.2.2 (toL "b")
    (by decide)⟩

theorem loopIter_cancel
    (procF : List Char → List Char → List Char × List Ev × Option Bool)
    (msg : List Char) (env : LoopEnv) (k : Nat) (st : RunSt)
    (h : env.running k = false) :
    loopIter procF msg env k st = ([], StepRes.stop ExitKind.cancelled st) := by
  simp [loopIter, h]

theorem loopIter_quiet
    (procF : List Char → List Char → List Char × List Ev × Option Bool)
    (msg : List Char) (env : LoopEnv) (k : Nat) (st : RunSt)
    (hrun : env.running k = true)
    (hpoll : env.pollRes k = Except.ok [] ∨ ∃ e, env.pollRes k = Except.error e) :
    loopIter procF msg env k st =
      (if env.alive k = false ∧ (k - st.lastOut) * POLL_MS > GRACE_MS then
        ([], StepRes.stop ExitKind.processDied st)
      else if st.gotFirst = false ∧ k * POLL_MS > STARTUP_TIMEOUT_MS then
        ([Ev.error msg], StepRes.stop ExitKind.timedOut st)
      else ([], StepRes.next st)) := by
  rcases hpoll with h | ⟨e, h⟩ <;> simp [loopIter, hrun, h]

theorem runLoop_cancel
    (procF : List Char → List Char → List Char × List Ev × Option Bool)
    (msg : List Char) (env : LoopEnv) (fuel k : Nat) (st : RunSt)
    (h : env.running k = false) (hf : 1 ≤ fuel) :
    runLoop procF msg env fuel k st = ([], some (ExitKind.cancelled, st)) := by
  cases fuel with
  | zero => omega
  | succ f => simp [runLoop, loopIter_cancel procF msg env k st h]

theorem runLoop_dead
    (procF : List Char → List Char → List Char × List Ev × Option Bool)
    (msg : List Char) (env : LoopEnv) :
    ∀ (fuel k : Nat) (st : RunSt),
      (∀ j, k ≤ j → env.running j = true ∧ env.alive j = false ∧
        env.pollRes j = Except.ok []) →
      (st.gotFirst = false → st.lastOut = 0) →
      st.lastOut + 42 ≤ k + fuel → 1 ≤ fuel →
      runLoop procF msg env fuel k st = ([], some (ExitKind.processDied, st)) := by
  intro fuel
  induction fuel with
  | zero => intro k st _ _ _ h1; omega
  | succ f ih =>
    intro k st henv hgot hle _
    obtain ⟨hrun, halive, hpoll⟩ := henv k (le_refl k)
    have hq := loopIter_quiet procF msg env k st hrun (Or.inl hpoll)
    by_cases hdie : (k - st.lastOut) * POLL_MS > GRACE_MS
    · have hstep : loopIter procF msg env k st =
          ([], StepRes.stop ExitKind.processDied st) := by
        rw [hq, if_pos ⟨halive, hdie⟩]
      simp [runLoop, hstep]
    · have hk40 : k ≤ st.lastOut + 40 := by
        simp only [POLL_MS, GRACE_MS, not_lt] at hdie
        omega
      have hnt : ¬(st.gotFirst = false ∧ k * POLL_MS > STARTUP_TIMEOUT_MS) := by
        rintro ⟨hg, hko⟩
        have h0 := hgot hg
        rw [h0] at hk40
        simp only [POLL_MS, STARTUP_TIMEOUT_MS] at hko
        omega
      have hstep : loopIter procF msg env k st = ([], StepRes.next st) := by
        rw [hq, if_neg (by rintro ⟨_, hd⟩; exact hdie hd), if_neg hnt]
      have hrec := ih (k + 1) st (fun j hj => henv j (by omega)) hgot
        (by omega) (by omega)
      simp [runLoop, hstep, hrec]

theorem runLoop_timeout
    (procF : List Char → List Char → List Char × List Ev × Option Bool)
    (msg : List Char) (env : LoopEnv) :
    ∀ (fuel k : Nat) (st : RunSt),
      (∀ j, k ≤ j → j ≤ 2401 → env.running j = true ∧ env.alive j = true ∧
        (env.pollRes j = Except.ok [] ∨ ∃ e, env.pollRes j = Except.error e)) →
      st.gotFirst = false →
      k ≤ 2401 → 2402 ≤ k + fuel →
      runLoop procF msg env fuel k st =
        ([Ev.error msg], some (ExitKind.timedOut, st)) := by
  intro fuel
  induction fuel with
  | zero => intro k st _ _ h1 h2; omega
  | succ f ih =>
    intro k st henv hgot hk hle
    obtain ⟨hrun, halive, hpoll⟩ := henv k (le_refl k) hk
    have hq := loopIter_quiet procF msg env k st hrun hpoll
    have hnodie : ¬(env.alive k = false ∧ (k - st.lastOut) * POLL_MS > GRACE_MS) := by
      rintro ⟨ha, _⟩
      rw [halive] at ha
      simp at ha
    by_cases hke : k = 2401
    · subst hke
      have hto : st.gotFirst = false ∧ 2401 * POLL_MS > STARTUP_TIMEOUT_MS :=
        ⟨hgot, by simp [POLL_MS, STARTUP_TIMEOUT_MS]⟩
      have hstep : loopIter procF msg env 2401 st =
          ([Ev.error msg], StepRes.stop ExitKind.timedOut st) := by
        rw [hq, if_neg hnodie, if_pos hto]
      simp [runLoop, hstep]
    · have hnt : ¬(st.gotFirst = false ∧ k * POLL_MS > STARTUP_TIMEOUT_MS) := by
        rintro ⟨_, hko⟩
        simp only [POLL_MS, STARTUP_TIMEOUT_MS] at hko
        omega
      have hstep : loopIter procF msg env k st = ([], StepRes.next st) := by
        rw [hq, if_neg hnodie, if_neg hnt]
      have hrec := ih (k + 1) st (fun j hj1 hj2 => henv j (by omega) hj2) hgot
        (by omega) (by omega)
      simp [runLoop, hstep, hrec]

theorem execDetachedTail_eq
    (procF : List Char → List Char → List Char × List Ev × Option Bool)
    (msg sid wid : List Char) (env : ExecEnv) (fuel pid : Nat)
    (hs : env.spawn = Except.ok pid) (ht : env.tailerNew = Except.ok ())
    (evs : List Ev) (x : ExitKind) (st : RunSt)
    (hr : runLoop procF msg env.loopEnv fuel 0 initRunSt = (evs, some (x, st))) :
    execDetachedTail procF msg sid wid env fuel =
      some (Eff.register pid :: (evs.map Eff.emit ++
        [Eff.unregister, Eff.emitDone (doneJson sid wid
          (st.completed || !(trimWs st.full).isEmpty) (trimWs st.full))]),
        Except.ok (pid, { content := trimWs st.full, sessionId := sid, cancelled := false })) := by
  simp [execDetachedTail, hs, ht, hr]

theorem execDetachedTail_ok_shape
    (procF : List Char → List Char → List Char × List Ev × Option Bool)
    (msg sid wid : List Char) (env : ExecEnv) (fuel : Nat)
    (effs : List Eff) (pid : Nat) (resp : CResp)
    (h : execDetachedTail procF msg sid wid env fuel =
      some (effs, Except.ok (pid, resp))) :
    ∃ evs x st,
      runLoop procF msg env.loopEnv fuel 0 initRunSt = (evs, some (x, st)) ∧
      effs = Eff.register pid :: (evs.map Eff.emit ++
        [Eff.unregister, Eff.emitDone (doneJson sid wid
          (st.completed || !(trimWs st.full).isEmpty) (trimWs st.full))]) ∧
      resp = { content := trimWs st.full, sessionId := sid, cancelled := false } := by
  unfold execDetachedTail at h
  cases hs : env.spawn with
  | error e => rw [hs] at h; simp at h
  | ok pid2 =>
    rw [hs] at h
    cases ht : env.tailerNew with
    | error e => rw [ht] at h; simp at h
    | ok u =>
      rw [ht] at h
      rcases hrl : runLoop procF msg env.loopEnv fuel 0 initRunSt with ⟨evs, ro⟩
      rw [hrl] at h
      cases ro with
      | none => simp at h
      | some pr =>
        obtain ⟨x, st⟩ := pr
        simp only [Option.some.injEq, Prod.mk.injEq] at h
        obtain ⟨heffs, hok⟩ := h
        have hpr : pid2 = pid ∧
            ({ content := trimWs st.full, sessionId := sid, cancelled := false } : CResp) = resp := by
          have := hok
          simp only [Except.ok.injEq, Prod.mk.injEq] at this
          exact this
        obtain ⟨hpid, hresp⟩ := hpr
        subst hpid
        exact ⟨evs, x, st, rfl, heffs.symm, hresp.symm⟩

/-- Claim C2 (code bug): when `NdjsonTailer::new_from_start` fails after
`register_process` succeeded, the `?` on the tailer construction returns
the error with the session still registered — `unregister_process` is
never called on this path, although the claim (and the spec's
scope-guaranteed-release requirement) demand exactly one unregistration on
every return taken after registration. -/
theorem c2_missing_unregister_on_tailer_failure :
    execCodexDetached (toL "s1") (toL "w1") c2Env 5 =
      some ([Eff.register 77],
        Except.error (toL "Failed to create tailer: " ++ toL "boom")) ∧
    countUnregister [Eff.register 77] = 0 :=
  ⟨rfl, rfl⟩

/-- Claim C4: in the Codex and Kimi tail loops, an iteration that finds
the process dead with the 2-second grace period elapsed since the last
non-empty poll breaks out on the normal completion path (first conjunct,
for any interpreter, hence for both loops); while the process is alive and
neither cancellation, turn completion nor startup timeout has occurred,
the loop keeps polling (second conjunct); and a whole run against a dead,
silent, uncancelled process converges within the grace period on
unregister plus `chat:done`, with no turn-completion record ever observed
(third conjunct, for both `execute_codex_detached` and
`execute_kimi_detached`). -/
theorem c4_dead_process_grace_completion :
    (∀ (procF : List Char → List Char → List Char × List Ev × Option Bool)
        (msg : List Char) (env : LoopEnv) (k : Nat) (st : RunSt),
      env.running k = true → env.pollRes k = Except.ok [] →
      env.alive k = false → (k - st.lastOut) * POLL_MS > GRACE_MS →
      loopIter procF msg env k st = ([], StepRes.stop ExitKind.processDied st)) ∧
    (∀ (procF : List Char → List Char → List Char × List Ev × Option Bool)
        (msg : List Char) (env : LoopEnv) (k : Nat) (st : RunSt),
      env.running k = true → env.alive k = true →
      (env.pollRes k = Except.ok [] ∨ ∃ e, env.pollRes k = Except.error e) →
      (st.gotFirst = true ∨ k * POLL_MS ≤ STARTUP_TIMEOUT_MS) →
      loopIter procF msg env k st = ([], StepRes.next st)) ∧
    (∀ (sid wid : List Char) (env : ExecEnv) (fuel pid : Nat),
      env.spawn = Except.ok pid → env.tailerNew = Except.ok () →
      (∀ j, env.loopEnv.running j = true ∧ env.loopEnv.alive j = false ∧
        env.loopEnv.pollRes j = Except.ok []) →
      42 ≤ fuel →
      execCodexDetached sid wid env fuel =
        some ([Eff.register pid, Eff.unregister,
          Eff.emitDone (doneJson sid wid false [])],
          Except.ok (pid, { content := [], sessionId := sid, cancelled := false })) ∧
      execKimiDetached sid wid env fuel =
        some ([Eff.register pid, Eff.unregister,
          Eff.emitDone (doneJson sid wid false [])],
          Except.ok (pid, { content := [], sessionId := sid, cancelled := false }))) := by
  refine ⟨?_, ?_, ?_⟩
  · intro procF msg env k st hrun hpoll halive hgrace
    rw [loopIter_quiet procF msg env k st hrun (Or.inl hpoll),
      if_pos ⟨halive, hgrace⟩]
  · intro procF msg env k st hrun halive hpoll hnt
    rw [loopIter_quiet procF msg env k st hrun hpoll]
    rw [if_neg (by rintro ⟨ha, _⟩; rw [halive] at ha; simp at ha)]
    rw [if_neg (by rintro ⟨hg, hko⟩; rcases hnt with h | h
                   · rw [hg] at h; simp at h
                   · omega)]
  · intro sid wid env fuel pid hs ht henv hf
    have hgot : initRunSt.gotFirst = false → initRunSt.lastOut = 0 := fun _ => rfl
    constructor
    · have hrl := runLoop_dead processCodexEvent codexTimeoutMsg env.loopEnv fuel 0
        initRunSt (fun j _ => henv j) hgot (by simp [initRunSt]; omega) (by omega)
      have h1 := execDetachedTail_eq processCodexEvent codexTimeoutMsg sid wid env
        fuel pid hs ht [] ExitKind.processDied initRunSt hrl
      rw [show execCodexDetached sid wid env fuel =
        execDetachedTail processCodexEvent codexTimeoutMsg sid wid env fuel from rfl,
        h1]
      rfl
    · have hrl := runLoop_dead processKimiEvent kimiTimeoutMsg env.loopEnv fuel 0
        initRunSt (fun j _ => henv j) hgot (by simp [initRunSt]; omega) (by omega)
      have h1 := execDetachedTail_eq processKimiEvent kimiTimeoutMsg sid wid env
        fuel pid hs ht [] ExitKind.processDied initRunSt hrl
      rw [show execKimiDetached sid wid env fuel =
        execDetachedTail processKimiEvent kimiTimeoutMsg sid wid env fuel from rfl,
        h1]
      rfl

/-- Claim C4 witness: a run against a process dead from the start, never
producing output, never cancelled. -/
theorem c4_dead_process_grace_completion_witness :
    (c4Env.spawn = Except.ok 7 ∧ c4Env.tailerNew = Except.ok () ∧
      (∀ j, c4Env.loopEnv.running j = true ∧ c4Env.loopEnv.alive j = false ∧
        c4Env.loopEnv.pollRes j = Except.ok []) ∧ 42 ≤ 42) ∧
    execCodexDetached (toL "s") (toL "w") c4Env 42 =
      some ([Eff.register 7, Eff.unregister,
        Eff.emitDone (doneJson (toL "s") (toL "w") false [])],
        Except.ok (7, { content := [], sessionId := toL "s", cancelled := false })) :=
  ⟨⟨rfl, rfl, fun _ => ⟨rfl, rfl, rfl⟩, by omega⟩,
    (c4_dead_process_grace_completion.2.2 (toL "s") (toL "w") c4Env 42 7 rfl rfl
      (fun _ => ⟨rfl, rfl, rfl⟩) (by omega)).1⟩

/-- Claim C5 (amended): if no poll before the 120-second startup timeout
ever returns records, the run is never cancelled and the process stays
alive, then at the first iteration past the timeout both loops stop and
surface a `chat:error` event — but its content is the fixed startup
timeout message for the vendor (the same error channel protocol errors
use); any captured stderr (`env.loopEnv.stderrContent` is arbitrary here)
is only logged and never included in the surfaced event.  The run then
unregisters and emits `chat:done`. -/
theorem c5_startup_timeout_amended :
    ∀ (sid wid : List Char) (env : ExecEnv) (fuel pid : Nat),
      env.spawn = Except.ok pid → env.tailerNew = Except.ok () →
      (∀ j, j ≤ 2401 → env.loopEnv.running j = true ∧ env.loopEnv.alive j = true ∧
        (env.loopEnv.pollRes j = Except.ok [] ∨
          ∃ e, env.loopEnv.pollRes j = Except.error e)) →
      2402 ≤ fuel →
      execCodexDetached sid wid env fuel =
        some ([Eff.register pid, Eff.emit (Ev.error codexTimeoutMsg),
          Eff.unregister, Eff.emitDone (doneJson sid wid false [])],
          Except.ok (pid, { content := [], sessionId := sid, cancelled := false })) ∧
      execKimiDetached sid wid env fuel =
        some ([Eff.register pid, Eff.emit (Ev.error kimiTimeoutMsg),
          Eff.unregister, Eff.emitDone (doneJson sid wid false [])],
          Except.ok (pid, { content := [], sessionId := sid, cancelled := false })) := by
  intro sid wid env fuel pid hs ht henv hf
  constructor
  · have hrl := runLoop_timeout processCodexEvent codexTimeoutMsg env.loopEnv fuel 0
      initRunSt (fun j _ hj => henv j hj) rfl (by omega) (by omega)
    have h1 := execDetachedTail_eq processCodexEvent codexTimeoutMsg sid wid env
      fuel pid hs ht [Ev.error codexTimeoutMsg] ExitKind.timedOut initRunSt hrl
    rw [show execCodexDetached sid wid env fuel =
      execDetachedTail processCodexEvent codexTimeoutMsg sid wid env fuel from rfl,
      h1]
    rfl
  · have hrl := runLoop_timeout processKimiEvent kimiTimeoutMsg env.loopEnv fuel 0
      initRunSt (fun j _ hj => henv j hj) rfl (by omega) (by omega)
    have h1 := execDetachedTail_eq processKimiEvent kimiTimeoutMsg sid wid env
      fuel pid hs ht [Ev.error kimiTimeoutMsg] ExitKind.timedOut initRunSt hrl
    rw [show execKimiDetached sid wid env fuel =
      execDetachedTail processKimiEvent kimiTimeoutMsg sid wid env fuel from rfl,
      h1]
    rfl

/-- Claim C5 witness: a run whose process stays alive and silent for the
whole startup window. -/
theorem c5_startup_timeout_amended_witness :
    (c5Env.spawn = Except.ok 9 ∧ c5Env.tailerNew = Except.ok () ∧
      (∀ j, j ≤ 2401 → c5Env.loopEnv.running j = true ∧
        c5Env.loopEnv.alive j = true ∧
        (c5Env.loopEnv.pollRes j = Except.ok [] ∨
          ∃ e, c5Env.loopEnv.pollRes j = Except.error e)) ∧ 2402 ≤ 2402) ∧
    execCodexDetached (toL "s") (toL "w") c5Env 2402 =
      some ([Eff.register 9, Eff.emit (Ev.error codexTimeoutMsg),
        Eff.unregister, Eff.emitDone (doneJson (toL "s") (toL "w") false [])],
        Except.ok (9, { content := [], sessionId := toL "s", cancelled := false })) :=
  ⟨⟨rfl, rfl, fun _ _ => ⟨rfl, rfl, Or.inl rfl⟩, by omega⟩,
    (c5_startup_timeout_amended (toL "s") (toL "w") c5Env 2402 9 rfl rfl
      (fun j _ => ⟨rfl, rfl, Or.inl rfl⟩) (by omega)).1⟩

/-- Claim C5 counterexample: with `boom` captured on stderr, the timed-out
run surfaces exactly one error event whose content is the fixed timeout
message, and the captured stderr content does not occur in it — the
surfaced content does not include the captured stderr, contrary to the
claim. -/
theorem c5_stderr_not_surfaced_counterexample :
    c5Env.loopEnv.stderrContent = toL "boom" ∧
    runLoop processCodexEvent codexTimeoutMsg c5Env.loopEnv 2402 0 initRunSt =
      ([Ev.error codexTimeoutMsg], some (ExitKind.timedOut, initRunSt)) ∧
    occursIn (toL "boom") codexTimeoutMsg = false := by
  refine ⟨rfl, ?_, by decide⟩
  exact runLoop_timeout processCodexEvent codexTimeoutMsg c5Env.loopEnv 2402 0
    initRunSt (fun j _ _ => ⟨rfl, rfl, Or.inl rfl⟩) rfl (by omega) (by omega)

/-- Claim C6 (amended): a termination because the registry reports the
session not running emits no event at all at the cancelling iteration
(in particular no error event), and the terminal `chat:done` notification
is still emitted — but its payload carries only the four fields
session_id, worktree_id, success and content, with no cancelled flag, and
the returned response's `cancelled` field is always `false`. -/
theorem c6_cancellation_amended :
    (∀ (procF : List Char → List Char → List Char × List Ev × Option Bool)
        (msg : List Char) (env : LoopEnv) (k : Nat) (st : RunSt),
      env.running k = false →
      loopIter procF msg env k st = ([], StepRes.stop ExitKind.cancelled st)) ∧
    (∀ (sid wid : List Char) (succ : Bool) (txt : List Char),
      (doneJson sid wid succ txt).getField (toL "cancelled") = none) ∧
    (∀ (procF : List Char → List Char → List Char × List Ev × Option Bool)
        (msg sid wid : List Char) (env : ExecEnv) (fuel : Nat)
        (effs : List Eff) (pid : Nat) (resp : CResp),
      execDetachedTail procF msg sid wid env fuel =
        some (effs, Except.ok (pid, resp)) → resp.cancelled = false) := by
  refine ⟨loopIter_cancel, fun _ _ _ _ => rfl, ?_⟩
  intro procF msg sid wid env fuel effs pid resp h
  obtain ⟨_, _, _, _, _, hresp⟩ :=
    execDetachedTail_ok_shape procF msg sid wid env fuel effs pid resp h
  rw [hresp]

/-- Claim C6 witness: a run cancelled before its first iteration. -/
theorem c6_cancellation_amended_witness :
    c6Env.loopEnv.running 0 = false ∧
    loopIter processCodexEvent codexTimeoutMsg c6Env.loopEnv 0 initRunSt =
      ([], StepRes.stop ExitKind.cancelled initRunSt) ∧
    ({ content := [], sessionId := toL "s", cancelled := false } : CResp).cancelled
      = false :=
  ⟨rfl,
    c6_cancellation_amended.1 processCodexEvent codexTimeoutMsg c6Env.loopEnv 0
      initRunSt rfl,
    c6_cancellation_amended.2.2 processCodexEvent codexTimeoutMsg (toL "s")
      (toL "w") c6Env 3
      [Eff.register 5, Eff.unregister,
        Eff.emitDone (doneJson (toL "s") (toL "w") false [])] 5
      { content := [], sessionId := toL "s", cancelled := false } rfl⟩

/-- Claim C6 counterexample: the cancelled run terminates with unregister
and `chat:done`, emitting no error event — but the done payload has no
`cancelled` field at all (looking it up yields `none`), so the run-done
notification does not carry a cancelled flag identifying the run as
cancelled. -/
theorem c6_no_cancelled_flag_counterexample :
    execCodexDetached (toL "s") (toL "w") c6Env 3 =
      some ([Eff.register 5, Eff.unregister,
        Eff.emitDone (doneJson (toL "s") (toL "w") false [])],
        Except.ok (5, { content := [], sessionId := toL "s", cancelled := false })) ∧
    (doneJson (toL "s") (toL "w") false []).getField (toL "cancelled") = none ∧
    countErrorEffs [Eff.register 5, Eff.unregister,
      Eff.emitDone (doneJson (toL "s") (toL "w") false [])] = 0 :=
  ⟨rfl, rfl, rfl⟩

theorem processCodexJson_signal_none {msg : Json} {full : List Char}
    (h1 : ((msg.getField (toL "type")).bind Json.asStr).getD [] ≠
      toL "turn.completed") :
    (processCodexJson msg full).2.2 = none := by
  simp only [processCodexJson]
  split_ifs with h2 h3 h4 h5
  · cases hit : msg.getField (toL "item") with
    | none => rfl
    | some item => repeat (first | rfl | split)
  · cases hit : msg.getField (toL "item") with
    | none => rfl
    | some item => repeat (first | rfl | split)
  · rfl
  · rfl
  · repeat (first | rfl | split)

theorem processCodexEvent_signal {line full : List Char}
    (h : (processCodexEvent line full).2.2 = some true) :
    ∃ msg, parseJson line = some msg ∧
      ((msg.getField (toL "type")).bind Json.asStr).getD [] =
        toL "turn.completed" := by
  unfold processCodexEvent at h
  by_cases h1 : (trimWs line).isEmpty = true
  · rw [if_pos h1] at h
    simp at h
  · rw [if_neg h1] at h
    cases hp : parseJson line with
    | none => rw [hp] at h; simp at h
    | some msg =>
      rw [hp] at h
      refine ⟨msg, rfl, ?_⟩
      by_contra hne
      rw [processCodexJson_signal_none hne] at h
      simp at h

theorem processKimiEvent_signal_none (line full : List Char) :
    (processKimiEvent line full).2.2 = none := by
  unfold processKimiEvent
  by_cases h1 : (trimWs line).isEmpty = true
  · rw [if_pos h1]
  · rw [if_neg h1]
    cases hp : parseJson line with
    | none => rfl
    | some msg =>
      simp only [processKimiJson]
      split_ifs <;> rfl

/-- Claim C9: the `success` field of the terminal `chat:done` event equals
(turn-completion observed) OR (whitespace-trimmed transcript non-empty):
the Codex interpreter signals completion only on a record whose `type` is
`turn.completed` (first conjunct), the Kimi interpreter never signals
completion (second conjunct), every successful run emits `chat:done` with
`success = completed || !(trim transcript).isEmpty` (third conjunct), and
in particular a run cancelled without any completion record but with
accumulated transcript text reports `success = true` (fourth conjunct,
concrete run). -/
theorem c9_done_success_flag :
    (∀ line full : List Char, (processCodexEvent line full).2.2 = some true →
      ∃ msg, parseJson line = some msg ∧
        ((msg.getField (toL "type")).bind Json.asStr).getD [] =
          toL "turn.completed") ∧
    (∀ line full : List Char, (processKimiEvent line full).2.2 = none) ∧
    (∀ (procF : List Char → List Char → List Char × List Ev × Option Bool)
        (msg sid wid : List Char) (env : ExecEnv) (fuel : Nat)
        (effs : List Eff) (pid : Nat) (resp : CResp),
      execDetachedTail procF msg sid wid env fuel =
        some (effs, Except.ok (pid, resp)) →
      ∃ evs x st,
        runLoop procF msg env.loopEnv fuel 0 initRunSt = (evs, some (x, st)) ∧
        effs = Eff.register pid :: (evs.map Eff.emit ++
          [Eff.unregister, Eff.emitDone (doneJson sid wid
            (st.completed || !(trimWs st.full).isEmpty) (trimWs st.full))]) ∧
        resp = { content := trimWs st.full, sessionId := sid, cancelled := false }) ∧
    execCodexDetached (toL "s") (toL "w") c9Env 5 =
      some ([Eff.register 3, Eff.emit (Ev.chunk (toL "hi" ++ ['\n'])),
        Eff.unregister, Eff.emitDone (doneJson (toL "s") (toL "w") true (toL "hi"))],
        Except.ok (3, { content := toL "hi", sessionId := toL "s", cancelled := false })) :=
  ⟨fun _ _ h => processCodexEvent_signal h,
    processKimiEvent_signal_none,
    execDetachedTail_ok_shape,
    rfl⟩

/-- Claim C9 witness: a Codex `turn.completed` record signals completion,
and a concrete successful run satisfies the `chat:done` shape. -/
theorem c9_done_success_flag_witness :
    (processCodexEvent (toL "\x7b\"type\":\"turn.completed\"\x7d") []).2.2 =
      some true ∧
    (∃ msg, parseJson (toL "\x7b\"type\":\"turn.completed\"\x7d") = some msg ∧
      ((msg.getField (toL "type")).bind Json.asStr).getD [] =
        toL "turn.completed") ∧
    execDetachedTail processCodexEvent codexTimeoutMsg (toL "s") (toL "w")
      c9Env 5 =
      some ([Eff.register 3, Eff.emit (Ev.chunk (toL "hi" ++ ['\n'])),
        Eff.unregister, Eff.emitDone (doneJson (toL "s") (toL "w") true (toL "hi"))],
        Except.ok (3, { content := toL "hi", sessionId := toL "s", cancelled := false })) ∧
    (∃ evs x st,
      runLoop processCodexEvent codexTimeoutMsg c9Env.loopEnv 5 0 initRunSt =
        (evs, some (x, st)) ∧
      ([Eff.register 3, Eff.emit (Ev.chunk (toL "hi" ++ ['\n'])),
        Eff.unregister,
        Eff.emitDone (doneJson (toL "s") (toL "w") true (toL "hi"))] : List Eff) =
        Eff.register 3 :: (evs.map Eff.emit ++
          [Eff.unregister, Eff.emitDone (doneJson (toL "s") (toL "w")
            (st.completed || !(trimWs st.full).isEmpty) (trimWs st.full))]) ∧
      ({ content := toL "hi", sessionId := toL "s", cancelled := false } : CResp) =
        { content := trimWs st.full, sessionId := toL "s", cancelled := false }) :=
  ⟨rfl, c9_done_success_flag.1 (toL "\x7b\"type\":\"turn.completed\"\x7d") [] rfl,
    rfl,
    c9_done_success_flag.2.2.1 processCodexEvent codexTimeoutMsg (toL "s")
      (toL "w") c9Env 5
      [Eff.register 3, Eff.emit (Ev.chunk (toL "hi" ++ ['\n'])), Eff.unregister,
        Eff.emitDone (doneJson (toL "s") (toL "w") true (toL "hi"))] 3
      { content := toL "hi", sessionId := toL "s", cancelled := false } rfl⟩
